import Mathlib

/- Shallow embedding of the fadroma-workshop contracts: an escrow-style auction
(src/auction/src/lib.rs) and a factory spawning auction instances
(src/factory/src/lib.rs), with shared types from src/shared/src/lib.rs.

Bidder identities (CanonicalAddr) are modelled as strings, Uint128 amounts as
Nat (the claims under study do not involve overflow), and contract storage as
explicit state records threaded through each operation.  Fallible entry points
return `Except String`, with the exact generic-error messages from the source;
errors raised inside the fadroma storage library (SingleItem.load_or_error,
InsertOnlyMap.get_or_error) carry a generic placeholder message, since only the
fact that they fail is determined by this repository.  Rust panics (unwrap,
index underflow in the factory reply handler) are likewise modelled as errors,
since a panic aborts the transaction. -/

/-- shared::SaleInfo: immutable sale descriptor. -/
structure SaleInfo where
  name : String
  end_block : Nat
deriving DecidableEq

/-- cosmwasm_std::Coin: a denomination together with an amount. -/
structure Coin where
  denom : String
  amount : Nat
deriving DecidableEq

/-- Canonical bidder identity (CanonicalAddr / Addr in the source). -/
abbrev Addr := String

/-- cosmwasm_std::BankMsg::Send: an outbound funds transfer. -/
structure BankMsg where
  to_address : Addr
  amount : List Coin
deriving DecidableEq

/-- shared::Pagination: window start (u64) and requested limit (u8). -/
structure Pagination where
  start : Nat
  limit : Nat
deriving DecidableEq

/-- shared::Pagination::LIMIT. -/
def Pagination.LIMIT : Nat := 30

/-- shared::PaginatedResponse. -/
structure PaginatedResponse (α : Type) where
  entries : List α
  total : Nat

namespace auction

/-- Lookup in the bidders InsertOnlyMap, modelled as an association list in
insertion order (fadroma's InsertOnlyMap iterates values in insertion order). -/
def ledgerLookup (m : List (Addr × Nat)) (k : Addr) : Option Nat :=
  match m with
  | [] => none
  | (k', v) :: rest => if k' = k then some v else ledgerLookup rest k

/-- InsertOnlyMap::insert: update the existing entry in place, or append. -/
def ledgerInsert (m : List (Addr × Nat)) (k : Addr) (v : Nat) : List (Addr × Nat) :=
  match m with
  | [] => [(k, v)]
  | (k', v') :: rest =>
    if k' = k then (k, v) :: rest else (k', v') :: ledgerInsert rest k v

/-- InsertOnlyMap::get_or_default with Uint128's default of zero. -/
def ledgerGetD (m : List (Addr × Nat)) (k : Addr) : Nat :=
  (ledgerLookup m k).getD 0

/-- Sum of all recorded ledger balances. -/
def sumValues (m : List (Addr × Nat)) : Nat :=
  (m.map (fun p => p.2)).sum

/-- Storage of one auction instance: SaleInfo (INFO), the HighestBidPointer
(HIGHEST_BID) and the BalanceLedger (bidders()). -/
structure AuctionState where
  info : SaleInfo
  highest_bid : Option Addr
  bidders : List (Addr × Nat)
deriving DecidableEq

/-- The amount credited by bid(): the first attached coin whose denomination is
"uscrt", or zero when there is none
(`info.funds.into_iter().find(|x| x.denom == "uscrt")`). -/
def firstUscrt (funds : List Coin) : Nat :=
  match funds.find? (fun c => c.denom = "uscrt") with
  | some c => c.amount
  | none => 0

/-- Total attached amount of denomination "uscrt" across all coins. -/
def uscrtTotal (funds : List Coin) : Nat :=
  ((funds.filter (fun c => c.denom = "uscrt")).map (fun c => c.amount)).sum

/-- A funds list as the chain delivers it: at most one coin per denomination,
so at most one "uscrt" coin. -/
def WellFormedFunds (funds : List Coin) : Prop :=
  funds.countP (fun c => c.denom = "uscrt") ≤ 1

/-- Auction::new — stores SaleInfo; the admin module initialisation is an
external collaborator and always succeeds for a valid address.  Note: no check
whatsoever is made on end_block. -/
def new (name : String) (end_block : Nat) : Except String AuctionState :=
  .ok { info := { name := name, end_block := end_block }
        highest_bid := none
        bidders := [] }

/-- Auction::bid. -/
def bid (st : AuctionState) (height : Nat) (sender : Addr) (funds : List Coin) :
    Except String (AuctionState × List BankMsg) :=
  if st.info.end_block < height then
    .error "Sale has finished."
  else
    let balance := ledgerGetD st.bidders sender + firstUscrt funds
    let bidders1 := ledgerInsert st.bidders sender balance
    match st.highest_bid with
    | some addr =>
      if addr ≠ sender then
        match ledgerLookup bidders1 addr with
        | none => .error "Storage load error."
        | some current_highest =>
          if current_highest < balance then
            .ok ({ st with bidders := bidders1, highest_bid := some sender }, [])
          else
            .ok ({ st with bidders := bidders1 }, [])
      else
        .ok ({ st with bidders := bidders1 }, [])
    | none =>
      -- This is the first bid.
      .ok ({ st with bidders := bidders1, highest_bid := some sender }, [])

/-- Auction::retract_bid. -/
def retract_bid (st : AuctionState) (height : Nat) (sender : Addr) :
    Except String (AuctionState × List BankMsg) :=
  if height < st.info.end_block then
    .error "Sale hasn't finished yet."
  else
    match st.highest_bid with
    | none => .error "Storage load error."
    | some highest_bidder =>
      if highest_bidder = sender then
        .error "You have won the sale and cannot retract your bid."
      else
        let balance := ledgerGetD st.bidders sender
        let bidders1 := ledgerInsert st.bidders sender 0
        let msgs := if 0 < balance then
            [{ to_address := sender, amount := [{ denom := "uscrt", amount := balance }] }]
          else ([] : List BankMsg)
        .ok ({ st with bidders := bidders1 }, msgs)

/-- Auction::claim_proceeds — the body after the admin gate (the
`admin::require_admin` attribute is an external collaborator that runs before
this body; `sender` is therefore the admin on any call that reaches it). -/
def claim_proceeds (st : AuctionState) (height : Nat) (sender : Addr) :
    Except String (AuctionState × List BankMsg) :=
  if height < st.info.end_block then
    .error "Sale hasn't finished yet."
  else
    match st.highest_bid with
    | some addr =>
      let balance := ledgerGetD st.bidders addr
      let bidders1 := ledgerInsert st.bidders addr 0
      .ok ({ st with bidders := bidders1 },
           [{ to_address := sender, amount := [{ denom := "uscrt", amount := balance }] }])
    | none =>
      -- No one made any bids on this sale
      .ok (st, [])

/-- Auction::active_bids. -/
def active_bids (st : AuctionState) (pagination : Pagination) :
    PaginatedResponse Nat :=
  let vals := st.bidders.map (fun p => p.2)
  let limit := min pagination.limit Pagination.LIMIT
  { total := vals.length
    entries := (vals.drop pagination.start).take limit }

/-- The HighestBidPointer invariant: a present pointer names a ledger key whose
value bounds every ledger value; an absent pointer means an empty ledger. -/
def Inv (st : AuctionState) : Prop :=
  match st.highest_bid with
  | none => st.bidders = []
  | some hb => ∃ v, ledgerLookup st.bidders hb = some v ∧ ∀ p ∈ st.bidders, p.2 ≤ v

/-- States reachable from a fresh auction through successful bid() and
retract_bid() calls. -/
inductive ReachableBR : AuctionState → Prop where
  | start (info : SaleInfo) :
      ReachableBR { info := info, highest_bid := none, bidders := [] }
  | step_bid (st st' : AuctionState) (height : Nat) (sender : Addr)
      (funds : List Coin) (msgs : List BankMsg) :
      ReachableBR st → bid st height sender funds = .ok (st', msgs) →
      ReachableBR st'
  | step_retract (st st' : AuctionState) (height : Nat) (sender : Addr)
      (msgs : List BankMsg) :
      ReachableBR st → retract_bid st height sender = .ok (st', msgs) →
      ReachableBR st'

/-- States reachable from a fresh auction through successful bid() calls with
well-formed attached funds, together with the contract's accumulated balance of
the "uscrt" denomination (all attached coins of that denomination are received
by the contract; nothing is sent out before settlement). -/
inductive BidReachable : AuctionState → Nat → Prop where
  | start (info : SaleInfo) :
      BidReachable { info := info, highest_bid := none, bidders := [] } 0
  | step (st st' : AuctionState) (held height : Nat) (sender : Addr)
      (funds : List Coin) (msgs : List BankMsg) :
      BidReachable st held → WellFormedFunds funds →
      bid st height sender funds = .ok (st', msgs) →
      BidReachable st' (held + uscrtTotal funds)

end auction

namespace factory

/-- fadroma ContractInstantiationInfo: code id and code hash of the stored
auction template (AUCTION_CONTRACT). -/
structure ContractInstantiationInfo where
  id : Nat
  code_hash : String
deriving DecidableEq

/-- factory::AuctionEntry, with CanonicalAddr modelled as a string; the
placeholder `CanonicalAddr(Binary::default())` is the empty string. -/
structure AuctionEntry where
  address : Addr
  code_hash : String
  info : SaleInfo
deriving DecidableEq

/-- Storage of one factory instance: AUCTION_CONTRACT and the auctions()
IterableStorage registry in append order. -/
structure FactoryState where
  template : Option ContractInstantiationInfo
  registry : List AuctionEntry
deriving DecidableEq

/-- shared::InstantiateMsg sent to the spawned auction. -/
structure InstantiateMsg where
  admin : Option String
  name : String
  end_block : Nat
deriving DecidableEq

/-- The SubMsg issued by create_auction: reply-on-success with a continuation
tag (`reply_id`), instantiating the stored code. -/
structure SubMsg where
  reply_id : Nat
  code_id : Nat
  code_hash : String
  msg : InstantiateMsg
deriving DecidableEq

/-- cosmwasm_std::SubMsgResponse — the completion payload; `data` decodes to
the new contract's address when present. -/
structure SubMsgResponse where
  data : Option Addr
deriving DecidableEq

/-- cosmwasm_std::Reply. -/
structure Reply where
  id : Nat
  result : Except String SubMsgResponse

/-- In-place update of the element at one index, all others unchanged
(IterableStorage::update). -/
def listModify (l : List α) (i : Nat) (f : α → α) : List α :=
  match l, i with
  | [], _ => []
  | x :: xs, 0 => f x :: xs
  | x :: xs, n + 1 => x :: listModify xs n f

/-- Factory::create_auction — appends a placeholder registry entry and issues
the deferred instantiation with continuation tag 0.  `height` enters only the
cosmetic label string, which the model omits; no end_block validation occurs. -/
def create_auction (st : FactoryState) (_height : Nat) (admin : Option String)
    (name : String) (end_block : Nat) :
    Except String (FactoryState × SubMsg) :=
  match st.template with
  | none => .error "Storage load error."
  | some auction =>
    let entry : AuctionEntry :=
      { address := "", code_hash := auction.code_hash
        info := { name := name, end_block := end_block } }
    .ok ({ st with registry := st.registry ++ [entry] },
         { reply_id := 0
           code_id := auction.id
           code_hash := auction.code_hash
           msg := { admin := admin, name := name, end_block := end_block } })

/-- Factory::reply — the completion callback.  The two source `unwrap()` calls
and the `len - 1` underflow on an empty registry are panics, modelled as
errors since a panic aborts the transaction. -/
def reply (st : FactoryState) (r : Reply) : Except String FactoryState :=
  if r.id ≠ 0 then
    .error "Unexpected reply id."
  else
    match r.result with
    | .error _ => .error "panic: unwrap on Err result"
    | .ok resp =>
      match resp.data with
      | none => .error "panic: unwrap on missing data"
      | some address =>
        if st.registry.length = 0 then
          .error "panic: registry length underflow"
        else
          let index := st.registry.length - 1
          .ok { st with
                registry := listModify st.registry index
                  (fun e => { e with address := address }) }

/-- Factory::list_auctions (humanize is the identity in this model). -/
def list_auctions (st : FactoryState) (pagination : Pagination) :
    PaginatedResponse AuctionEntry :=
  let limit := min pagination.limit Pagination.LIMIT
  { total := st.registry.length
    entries := (st.registry.drop pagination.start).take limit }

end factory

namespace auction

theorem ledgerLookup_insert_self (m : List (Addr × Nat)) (k : Addr) (v : Nat) :
    ledgerLookup (ledgerInsert m k v) k = some v := by
  induction m with
  | nil => simp [ledgerInsert, ledgerLookup]
  | cons p rest ih =>
    obtain ⟨k', v'⟩ := p
    by_cases h : k' = k
    · simp [ledgerInsert, h, ledgerLookup]
    · simp [ledgerInsert, h, ledgerLookup, ih]

theorem ledgerLookup_insert_ne (m : List (Addr × Nat)) (k k' : Addr) (v : Nat)
    (h : k' ≠ k) : ledgerLookup (ledgerInsert m k v) k' = ledgerLookup m k' := by
  induction m with
  | nil => simp [ledgerInsert, ledgerLookup, Ne.symm h]
  | cons p rest ih =>
    obtain ⟨a, b⟩ := p
    by_cases ha : a = k
    · subst ha
      simp [ledgerInsert, ledgerLookup, Ne.symm h]
    · simp [ledgerInsert, ha, ledgerLookup, ih]

theorem ledgerGetD_insert_self (m : List (Addr × Nat)) (k : Addr) (v : Nat) :
    ledgerGetD (ledgerInsert m k v) k = v := by
  simp [ledgerGetD, ledgerLookup_insert_self]

theorem ledgerGetD_insert_ne (m : List (Addr × Nat)) (k k' : Addr) (v : Nat)
    (h : k' ≠ k) : ledgerGetD (ledgerInsert m k v) k' = ledgerGetD m k' := by
  simp [ledgerGetD, ledgerLookup_insert_ne m k k' v h]

theorem mem_ledgerInsert (m : List (Addr × Nat)) (k : Addr) (v : Nat)
    (p : Addr × Nat) (hp : p ∈ ledgerInsert m k v) : p = (k, v) ∨ p ∈ m := by
  induction m with
  | nil => simpa [ledgerInsert] using hp
  | cons q rest ih =>
    obtain ⟨a, b⟩ := q
    by_cases ha : a = k
    · simp only [ledgerInsert, ha, if_pos rfl] at hp
      rcases List.mem_cons.mp hp with h1 | h2
      · exact Or.inl h1
      · exact Or.inr (List.mem_cons_of_mem _ h2)
    · simp only [ledgerInsert, if_neg ha] at hp
      rcases List.mem_cons.mp hp with h1 | h2
      · exact Or.inr (List.mem_cons.mpr (Or.inl h1))
      · rcases ih h2 with h3 | h4
        · exact Or.inl h3
        · exact Or.inr (List.mem_cons_of_mem _ h4)

theorem sumValues_ledgerInsert_add (m : List (Addr × Nat)) (k : Addr) (a : Nat) :
    sumValues (ledgerInsert m k (ledgerGetD m k + a)) = sumValues m + a := by
  induction m with
  | nil => simp [ledgerInsert, ledgerGetD, ledgerLookup, sumValues]
  | cons q rest ih =>
    obtain ⟨k', v'⟩ := q
    by_cases h : k' = k
    · subst h
      have h1 : ledgerGetD ((k', v') :: rest) k' = v' := by
        simp [ledgerGetD, ledgerLookup]
      have h2 : ledgerInsert ((k', v') :: rest) k' (v' + a) = (k', v' + a) :: rest := by
        simp [ledgerInsert]
      rw [h1, h2]
      simp only [sumValues, List.map_cons, List.sum_cons]
      omega
    · have h1 : ledgerGetD ((k', v') :: rest) k = ledgerGetD rest k := by
        simp [ledgerGetD, ledgerLookup, h]
      have h2 : ledgerInsert ((k', v') :: rest) k (ledgerGetD rest k + a)
          = (k', v') :: ledgerInsert rest k (ledgerGetD rest k + a) := by
        simp [ledgerInsert, h]
      rw [h1, h2]
      simp only [sumValues, List.map_cons, List.sum_cons] at ih ⊢
      omega

theorem firstUscrt_of_no_uscrt (funds : List Coin)
    (h : ∀ c ∈ funds, c.denom ≠ "uscrt") : firstUscrt funds = 0 := by
  have : funds.find? (fun c => c.denom = "uscrt") = none := by
    rw [List.find?_eq_none]
    intro c hc
    simp [h c hc]
  simp [firstUscrt, this]

theorem firstUscrt_eq_uscrtTotal (funds : List Coin) (h : WellFormedFunds funds) :
    firstUscrt funds = uscrtTotal funds := by
  induction funds with
  | nil => rfl
  | cons c rest ih =>
    by_cases hc : c.denom = "uscrt"
    · have hz : rest.countP (fun c => decide (c.denom = "uscrt")) = 0 := by
        have hh := h
        simp only [WellFormedFunds, List.countP_cons, hc, decide_True, if_true] at hh
        omega
      have hrest : ∀ x ∈ rest, ¬ (x.denom = "uscrt") := by
        intro x hx
        have := List.countP_eq_zero.mp hz x hx
        simpa using this
      have hfil : rest.filter (fun c => decide (c.denom = "uscrt")) = [] := by
        rw [List.filter_eq_nil_iff]
        intro x hx
        simp [hrest x hx]
      simp [firstUscrt, uscrtTotal, List.find?_cons, hc, List.filter_cons, hfil]
    · have hwf : WellFormedFunds rest := by
        simpa [WellFormedFunds, List.countP_cons, hc] using h
      simp only [firstUscrt, uscrtTotal, List.find?_cons, List.filter_cons] at ih ⊢
      simp only [hc, decide_False] at ih ⊢
      simpa [firstUscrt, uscrtTotal] using ih hwf

theorem bid_ok_shape (st : AuctionState) (height : Nat) (sender : Addr)
    (funds : List Coin) (st' : AuctionState) (msgs : List BankMsg)
    (hok : bid st height sender funds = .ok (st', msgs)) :
    st'.bidders = ledgerInsert st.bidders sender
      (ledgerGetD st.bidders sender + firstUscrt funds)
    ∧ msgs = [] ∧ st'.info = st.info := by
  simp only [bid] at hok
  repeat' split at hok
  all_goals first
    | exact Except.noConfusion hok
    | (simp only [Except.ok.injEq, Prod.mk.injEq] at hok
       obtain ⟨h1, h2⟩ := hok
       subst h1
       subst h2
       exact ⟨rfl, rfl, rfl⟩)

theorem bid_preserves_Inv (st st' : AuctionState) (height : Nat) (sender : Addr)
    (funds : List Coin) (msgs : List BankMsg) (hInv : Inv st)
    (hok : bid st height sender funds = .ok (st', msgs)) : Inv st' := by
  simp only [bid] at hok
  split at hok
  · exact Except.noConfusion hok
  split at hok
  · -- highest bidder recorded: some addr
    rename_i addr heq
    split at hok
    · -- addr ≠ sender
      rename_i hne
      split at hok
      · exact Except.noConfusion hok
      · rename_i current_highest hcur
        have hcur' : ledgerLookup st.bidders addr = some current_highest := by
          rw [← hcur]
          exact (ledgerLookup_insert_ne st.bidders sender addr _ hne).symm
        obtain ⟨v, hv, hall⟩ : ∃ v, ledgerLookup st.bidders addr = some v
            ∧ ∀ p ∈ st.bidders, p.2 ≤ v := by
          have := hInv
          rw [Inv, heq] at this
          exact this
        have hvc : v = current_highest := by
          rw [hv] at hcur'
          simpa using hcur'
        split at hok
        · -- the sender's new balance strictly exceeds the current highest
          rename_i hlt
          simp only [Except.ok.injEq, Prod.mk.injEq] at hok
          obtain ⟨h1, h2⟩ := hok
          subst h1
          rw [Inv]
          refine ⟨_, ledgerLookup_insert_self st.bidders sender _, ?_⟩
          intro p hp
          rcases mem_ledgerInsert _ _ _ _ hp with h3 | h4
          · subst h3; exact Nat.le_refl _
          · exact Nat.le_trans (hall p h4) (Nat.le_of_lt (hvc ▸ hlt))
        · -- the incumbent keeps the pointer (ties included)
          rename_i hnlt
          simp only [Except.ok.injEq, Prod.mk.injEq] at hok
          obtain ⟨h1, h2⟩ := hok
          subst h1
          rw [Inv]
          simp only [heq]
          refine ⟨v, ?_, ?_⟩
          · rw [ledgerLookup_insert_ne st.bidders sender addr _ hne]
            exact hv
          · intro p hp
            rcases mem_ledgerInsert _ _ _ _ hp with h3 | h4
            · subst h3
              exact hvc ▸ Nat.le_of_not_lt hnlt
            · exact hall p h4
    · -- the sender is already the highest bidder
      rename_i hne
      have hsend : addr = sender := Decidable.not_not.mp hne
      subst hsend
      obtain ⟨v, hv, hall⟩ : ∃ v, ledgerLookup st.bidders addr = some v
          ∧ ∀ p ∈ st.bidders, p.2 ≤ v := by
        have := hInv
        rw [Inv, heq] at this
        exact this
      simp only [Except.ok.injEq, Prod.mk.injEq] at hok
      obtain ⟨h1, h2⟩ := hok
      subst h1
      rw [Inv]
      simp only [heq]
      have hgd : ledgerGetD st.bidders addr = v := by
        simp [ledgerGetD, hv]
      refine ⟨_, ledgerLookup_insert_self st.bidders addr _, ?_⟩
      intro p hp
      rcases mem_ledgerInsert _ _ _ _ hp with h3 | h4
      · subst h3; exact Nat.le_refl _
      · exact Nat.le_trans (hall p h4) (by omega)
  · -- first bid ever
    rename_i heq
    have hempty : st.bidders = [] := by
      have := hInv
      rw [Inv, heq] at this
      exact this
    simp only [Except.ok.injEq, Prod.mk.injEq] at hok
    obtain ⟨h1, h2⟩ := hok
    subst h1
    rw [Inv]
    simp only [hempty]
    refine ⟨_, ledgerLookup_insert_self [] sender _, ?_⟩
    intro p hp
    rcases mem_ledgerInsert _ _ _ _ hp with h3 | h4
    · subst h3; exact Nat.le_refl _
    · simp at h4

theorem retract_preserves_Inv (st st' : AuctionState) (height : Nat)
    (sender : Addr) (msgs : List BankMsg) (hInv : Inv st)
    (hok : retract_bid st height sender = .ok (st', msgs)) : Inv st' := by
  unfold retract_bid at hok
  split at hok
  · exact Except.noConfusion hok
  split at hok
  · exact Except.noConfusion hok
  · rename_i hb heq
    split at hok
    · exact Except.noConfusion hok
    · rename_i hne
      simp only [Except.ok.injEq, Prod.mk.injEq] at hok
      obtain ⟨h1, h2⟩ := hok
      subst h1
      obtain ⟨v, hv, hall⟩ : ∃ v, ledgerLookup st.bidders hb = some v
          ∧ ∀ p ∈ st.bidders, p.2 ≤ v := by
        have := hInv
        rw [Inv, heq] at this
        exact this
      rw [Inv]
      simp only [heq]
      refine ⟨v, ?_, ?_⟩
      · rw [ledgerLookup_insert_ne st.bidders sender hb _ hne]
        exact hv
      · intro p hp
        rcases mem_ledgerInsert _ _ _ _ hp with h3 | h4
        · subst h3; exact Nat.zero_le _
        · exact hall p h4

end auction

namespace factory

theorem listModify_length (l : List α) (i : Nat) (f : α → α) :
    (listModify l i f).length = l.length := by
  induction l generalizing i with
  | nil => rfl
  | cons x xs ih =>
    cases i with
    | zero => rfl
    | succ n => simpa [listModify] using ih n

theorem listModify_get_self (l : List α) (i : Nat) (f : α → α) :
    (listModify l i f).get? i = (l.get? i).map f := by
  induction l generalizing i with
  | nil => simp [listModify]
  | cons x xs ih =>
    cases i with
    | zero => simp [listModify]
    | succ n => simpa [listModify] using ih n

theorem listModify_get_ne (l : List α) (i j : Nat) (f : α → α) (h : j ≠ i) :
    (listModify l i f).get? j = l.get? j := by
  induction l generalizing i j with
  | nil => simp [listModify]
  | cons x xs ih =>
    cases i with
    | zero =>
      cases j with
      | zero => exact absurd rfl h
      | succ n => simp [listModify]
    | succ m =>
      cases j with
      | zero => simp [listModify]
      | succ n =>
        simp only [listModify, List.get?_cons_succ]
        exact ih m n (fun hh => h (by rw [hh]))

end factory

/-- C1, counterexample to the claim as stated: at block height exactly equal to
SaleInfo.end_block, retract_bid() by a non-winning caller succeeds instead of
failing with the "not finished" error. -/
theorem C1_counterexample :
    auction.retract_bid
      { info := { name := "s", end_block := 5 }
        highest_bid := some "a"
        bidders := [("a", 10), ("b", 7)] } 5 "b"
    = .ok ({ info := { name := "s", end_block := 5 }
             highest_bid := some "a"
             bidders := [("a", 10), ("b", 0)] },
           [{ to_address := "b", amount := [{ denom := "uscrt", amount := 7 }] }]) := by
  rfl

/-- C1 (amended): bid() fails with the "sale finished" error exactly when the
current block height is strictly greater than SaleInfo.end_block, and
retract_bid() and claim_proceeds() fail with the "not finished" error exactly
when the current block height is strictly less than end_block; in particular,
at height equal to end_block, none of the three fails its phase gate. -/
theorem C1_phase_gating (st : auction.AuctionState) (height : Nat)
    (sender : Addr) (funds : List Coin) :
    (auction.bid st height sender funds = .error "Sale has finished."
      ↔ st.info.end_block < height)
  ∧ (auction.retract_bid st height sender = .error "Sale hasn't finished yet."
      ↔ height < st.info.end_block)
  ∧ (auction.claim_proceeds st height sender = .error "Sale hasn't finished yet."
      ↔ height < st.info.end_block) := by
  refine ⟨⟨?_, ?_⟩, ⟨?_, ?_⟩, ⟨?_, ?_⟩⟩
  · intro h
    by_contra hn
    simp only [auction.bid, if_neg hn] at h
    repeat' split at h
    all_goals first
      | exact Except.noConfusion h
      | (injection h with hs; exact absurd hs (by decide))
  · intro h
    simp [auction.bid, h]
  · intro h
    by_contra hn
    simp only [auction.retract_bid, if_neg hn] at h
    repeat' split at h
    all_goals first
      | exact Except.noConfusion h
      | (injection h with hs; exact absurd hs (by decide))
  · intro h
    simp [auction.retract_bid, h]
  · intro h
    by_contra hn
    simp only [auction.claim_proceeds, if_neg hn] at h
    repeat' split at h
    all_goals exact Except.noConfusion h
  · intro h
    simp [auction.claim_proceeds, h]

/-- C2, counterexample to the claim as stated: in the Closed phase of a fresh
auction where no bid was ever placed (HighestBidPointer absent), retract_bid()
by a non-winner fails (HIGHEST_BID.load_or_error errors on the absent pointer)
instead of succeeding with no transfer. -/
theorem C2_counterexample :
    ∃ e, auction.retract_bid
      { info := { name := "s", end_block := 5 }
        highest_bid := none
        bidders := [] } 9 "b" = .error e :=
  ⟨"Storage load error.", by rfl⟩

/-- C2 (amended): in the Closed phase, when a highest bidder is recorded,
retract_bid() fails with the "won the sale" error (distinct from the
phase-violation error) exactly when the caller is that recorded highest
bidder; every other caller succeeds, has their ledger entry zeroed, and
receives a funds transfer of the pre-zero balance exactly when that balance
was positive.  When no bid has ever been placed (pointer absent), the call
fails with a storage-load error rather than succeeding. -/
theorem C2_retract_closed (st : auction.AuctionState) (height : Nat)
    (sender : Addr) (hclosed : st.info.end_block ≤ height) :
    (st.highest_bid = none →
      auction.retract_bid st height sender = .error "Storage load error.")
  ∧ (∀ hb, st.highest_bid = some hb →
      ((auction.retract_bid st height sender
          = .error "You have won the sale and cannot retract your bid.")
        ↔ sender = hb)
    ∧ (sender ≠ hb →
        auction.retract_bid st height sender
          = .ok ({ st with bidders := auction.ledgerInsert st.bidders sender 0 },
                 if 0 < auction.ledgerGetD st.bidders sender then
                   [{ to_address := sender,
                      amount := [{ denom := "uscrt",
                                   amount := auction.ledgerGetD st.bidders sender }] }]
                 else []))) := by
  have hnl : ¬ height < st.info.end_block := Nat.not_lt.mpr hclosed
  refine ⟨?_, ?_⟩
  · intro hnone
    simp [auction.retract_bid, hnl, hnone]
  · intro hb hhb
    by_cases hsb : sender = hb
    · subst hsb
      refine ⟨⟨fun _ => rfl, fun _ => ?_⟩, fun hne => absurd rfl hne⟩
      simp [auction.retract_bid, hnl, hhb]
    · have hbs : ¬ hb = sender := fun hh => hsb hh.symm
      refine ⟨⟨fun h => ?_, fun h => absurd h hsb⟩, fun _ => ?_⟩
      · simp [auction.retract_bid, hnl, hhb, hbs] at h
      · simp [auction.retract_bid, hnl, hhb, hbs]

/-- Witness for C2 (amended): a concrete non-winner retraction in the Closed
phase, evaluated. -/
theorem C2_witness :
    auction.retract_bid
      { info := { name := "s", end_block := 5 }
        highest_bid := some "a"
        bidders := [("a", 10), ("c", 3)] } 7 "c"
    = .ok ({ info := { name := "s", end_block := 5 }
             highest_bid := some "a"
             bidders := [("a", 10), ("c", 0)] },
           [{ to_address := "c", amount := [{ denom := "uscrt", amount := 3 }] }]) := by
  have h := ((C2_retract_closed
      { info := { name := "s", end_block := 5 }
        highest_bid := some "a"
        bidders := [("a", 10), ("c", 3)] } 7 "c" (by decide)).2 "a" rfl).2
    (by decide)
  exact h

/-- C3, counterexample to the claim as stated: a second claim_proceeds() by the
admin, with a highest bidder recorded whose ledger entry is already zero,
emits a BankMsg::Send carrying a zero-amount "uscrt" coin — not an empty
message list. -/
theorem C3_counterexample :
    auction.claim_proceeds
      { info := { name := "s", end_block := 5 }
        highest_bid := some "w"
        bidders := [("w", 0)] } 9 "adm"
    = .ok ({ info := { name := "s", end_block := 5 }
             highest_bid := some "w"
             bidders := [("w", 0)] },
           [{ to_address := "adm", amount := [{ denom := "uscrt", amount := 0 }] }]) := by
  rfl

/-- C3 (amended): after a first payout has zeroed a party's ledger entry, a
second retract_bid() by that (non-winning) party succeeds and emits no
funds-transfer message at all, while a second claim_proceeds() by the admin
succeeds but emits one BankMsg::Send whose coin amount is zero (the zero
transfer is sent, not omitted). -/
theorem C3_idempotent_settlement (st : auction.AuctionState) (height : Nat)
    (sender hb : Addr) (hclosed : st.info.end_block ≤ height)
    (hhb : st.highest_bid = some hb) :
    (sender ≠ hb → auction.ledgerGetD st.bidders sender = 0 →
      auction.retract_bid st height sender
        = .ok ({ st with bidders := auction.ledgerInsert st.bidders sender 0 }, []))
  ∧ (auction.ledgerGetD st.bidders hb = 0 →
      auction.claim_proceeds st height sender
        = .ok ({ st with bidders := auction.ledgerInsert st.bidders hb 0 },
               [{ to_address := sender, amount := [{ denom := "uscrt", amount := 0 }] }])) := by
  have hnl : ¬ height < st.info.end_block := Nat.not_lt.mpr hclosed
  constructor
  · intro hne hzero
    have hbs : ¬ hb = sender := fun hh => hne hh.symm
    simp [auction.retract_bid, hnl, hhb, hbs, hzero]
  · intro hzero
    simp [auction.claim_proceeds, hnl, hhb, hzero]

/-- Witness for C3 (amended): both second calls evaluated at a concrete
settled state. -/
theorem C3_witness :
    auction.retract_bid
      { info := { name := "s", end_block := 5 }
        highest_bid := some "w"
        bidders := [("w", 9), ("c", 0)] } 8 "c"
    = .ok ({ info := { name := "s", end_block := 5 }
             highest_bid := some "w"
             bidders := [("w", 9), ("c", 0)] }, [])
  ∧ auction.claim_proceeds
      { info := { name := "s", end_block := 5 }
        highest_bid := some "w"
        bidders := [("w", 0)] } 8 "adm"
    = .ok ({ info := { name := "s", end_block := 5 }
             highest_bid := some "w"
             bidders := [("w", 0)] },
           [{ to_address := "adm", amount := [{ denom := "uscrt", amount := 0 }] }]) :=
  ⟨(C3_idempotent_settlement
      { info := { name := "s", end_block := 5 }
        highest_bid := some "w"
        bidders := [("w", 9), ("c", 0)] } 8 "c" "w" (by decide) rfl).1
    (by decide) rfl,
   (C3_idempotent_settlement
      { info := { name := "s", end_block := 5 }
        highest_bid := some "w"
        bidders := [("w", 0)] } 8 "adm" "w" (by decide) rfl).2 rfl⟩

/-- C4, counterexample to the claim as stated: from a fresh auction, bidder a
bids 100, bidder b bids 150 (becoming highest), and after the deadline the
admin calls claim_proceeds(); the resulting state — reached by a state-changing
auction operation from a reachable state — keeps the pointer on b while b's
ledger value 0 is no longer the maximum (a still holds 100). -/
theorem C4_counterexample :
    auction.bid
      { info := { name := "s", end_block := 5 }
        highest_bid := none, bidders := [] } 1 "a"
      [{ denom := "uscrt", amount := 100 }]
    = .ok ({ info := { name := "s", end_block := 5 }
             highest_bid := some "a", bidders := [("a", 100)] }, [])
  ∧ auction.bid
      { info := { name := "s", end_block := 5 }
        highest_bid := some "a", bidders := [("a", 100)] } 1 "b"
      [{ denom := "uscrt", amount := 150 }]
    = .ok ({ info := { name := "s", end_block := 5 }
             highest_bid := some "b", bidders := [("a", 100), ("b", 150)] }, [])
  ∧ auction.claim_proceeds
      { info := { name := "s", end_block := 5 }
        highest_bid := some "b", bidders := [("a", 100), ("b", 150)] } 9 "adm"
    = .ok ({ info := { name := "s", end_block := 5 }
             highest_bid := some "b", bidders := [("a", 100), ("b", 0)] },
           [{ to_address := "adm", amount := [{ denom := "uscrt", amount := 150 }] }])
  ∧ ¬ auction.Inv
      { info := { name := "s", end_block := 5 }
        highest_bid := some "b", bidders := [("a", 100), ("b", 0)] } := by
  refine ⟨by rfl, by rfl, by rfl, ?_⟩
  intro hInv
  obtain ⟨v, hv, hall⟩ := hInv
  have hl : auction.ledgerLookup [("a", 100), ("b", 0)] "b" = some 0 := by rfl
  rw [hl] at hv
  injection hv with hv'
  have h100 := hall ("a", 100) (List.mem_cons_self _ _)
  omega

/-- C4 (amended): the HighestBidPointer invariant — a present pointer names a
key in BalanceLedger whose stored value is the maximum over all ledger values
(ties never displacing the incumbent), and an absent pointer only in states
where no bid has ever been placed — is preserved by bid() and retract_bid()
over every state so reachable from a fresh auction; claim_proceeds(), however,
zeroes the winner's entry while keeping the pointer, and can therefore leave
the pointer on a non-maximal entry. -/
theorem C4_highest_bid_invariant (st : auction.AuctionState)
    (h : auction.ReachableBR st) : auction.Inv st := by
  induction h with
  | start info => exact rfl
  | step_bid st st' height sender funds msgs hr hok ih =>
    exact auction.bid_preserves_Inv st st' height sender funds msgs ih hok
  | step_retract st st' height sender msgs hr hok ih =>
    exact auction.retract_preserves_Inv st st' height sender msgs ih hok

/-- Witness for C4 (amended): the invariant holds at a concrete state reached
by one bid from a fresh auction. -/
theorem C4_witness :
    auction.Inv
      { info := { name := "s", end_block := 5 }
        highest_bid := some "a", bidders := [("a", 100)] } :=
  C4_highest_bid_invariant _
    (auction.ReachableBR.step_bid _ _ 1 "a" [{ denom := "uscrt", amount := 100 }] []
      (auction.ReachableBR.start { name := "s", end_block := 5 }) (by rfl))

/-- C5 (confirmed): on a fresh auction (pointer absent, empty ledger) in the
Open phase, the first bid() by any identity succeeds and makes that identity
the highest bidder regardless of the attached amount; funds with no coin of
the recognized "uscrt" denomination contribute zero to the caller's ledger
entry. -/
theorem C5_first_bid_rule (info : SaleInfo) (height : Nat) (sender : Addr)
    (funds : List Coin) (hopen : height ≤ info.end_block) :
    auction.bid { info := info, highest_bid := none, bidders := [] }
        height sender funds
      = .ok ({ info := info, highest_bid := some sender,
               bidders := [(sender, auction.firstUscrt funds)] }, [])
  ∧ ((∀ c ∈ funds, c.denom ≠ "uscrt") → auction.firstUscrt funds = 0) := by
  constructor
  · simp [auction.bid, Nat.not_lt.mpr hopen, auction.ledgerGetD,
      auction.ledgerLookup, auction.ledgerInsert]
  · exact auction.firstUscrt_of_no_uscrt funds

/-- Witness for C5: a concrete first bid with no "uscrt" coin attached still
takes the pointer, with a zero ledger entry. -/
theorem C5_witness :
    auction.bid
      { info := { name := "s", end_block := 5 }
        highest_bid := none, bidders := [] } 3 "a"
      [{ denom := "uatom", amount := 7 }]
    = .ok ({ info := { name := "s", end_block := 5 }
             highest_bid := some "a", bidders := [("a", 0)] }, []) :=
  (C5_first_bid_rule { name := "s", end_block := 5 } 3 "a"
    [{ denom := "uatom", amount := 7 }] (by decide)).1

/-- C6 (confirmed): along any sequence of successful bids with well-formed
attached funds (at most one coin per denomination, as the chain delivers them)
and no payout yet, the contract's held "uscrt" balance equals the sum of all
BalanceLedger values; moreover every successful bid() increases exactly the
caller's ledger entry, by exactly the attached amount of the recognized
denomination. -/
theorem C6_fund_conservation (st : auction.AuctionState) (held : Nat)
    (h : auction.BidReachable st held) :
    held = auction.sumValues st.bidders
  ∧ ∀ (st2 st' : auction.AuctionState) (height : Nat) (sender : Addr)
      (funds : List Coin) (msgs : List BankMsg),
      auction.bid st2 height sender funds = .ok (st', msgs) →
      auction.ledgerGetD st'.bidders sender
        = auction.ledgerGetD st2.bidders sender + auction.firstUscrt funds := by
  constructor
  · induction h with
    | start info => rfl
    | step st st' held height sender funds msgs hr hwf hok ih =>
      obtain ⟨hb, hm, hi⟩ := auction.bid_ok_shape st height sender funds st' msgs hok
      rw [hb, auction.sumValues_ledgerInsert_add, ← ih,
        auction.firstUscrt_eq_uscrtTotal funds hwf]
  · intro st2 st' height sender funds msgs hok
    obtain ⟨hb, hm, hi⟩ := auction.bid_ok_shape st2 height sender funds st' msgs hok
    rw [hb, auction.ledgerGetD_insert_self]

/-- Witness for C6: one concrete bid of 5 uscrt from a fresh auction; the held
balance equals the ledger sum. -/
theorem C6_witness :
    (0 + auction.uscrtTotal [{ denom := "uscrt", amount := 5 }])
      = auction.sumValues [("a", 5)] :=
  (C6_fund_conservation
    { info := { name := "s", end_block := 9 }
      highest_bid := some "a", bidders := [("a", 5)] }
    (0 + auction.uscrtTotal [{ denom := "uscrt", amount := 5 }])
    (auction.BidReachable.step _ _ 0 1 "a" [{ denom := "uscrt", amount := 5 }] []
      (auction.BidReachable.start { name := "s", end_block := 9 })
      (Nat.le_refl 1) (by rfl))).1

/-- C7 (confirmed): the factory's completion callback fails with the
"unexpected reply id" error exactly when the reply's continuation tag differs
from the expected tag 0; on the expected tag, with a successful result whose
payload carries the new contract's address and a non-empty registry, it writes
that address into the registry entry at index (length − 1) and leaves every
other entry (and the registry length) unchanged. -/
theorem C7_reply_correlation (st : factory.FactoryState) (r : factory.Reply) :
    (factory.reply st r = .error "Unexpected reply id." ↔ r.id ≠ 0)
  ∧ (∀ (resp : factory.SubMsgResponse) (addr : Addr),
      r.id = 0 → r.result = .ok resp → resp.data = some addr →
      0 < st.registry.length →
      ∃ reg', factory.reply st r = .ok { st with registry := reg' }
        ∧ reg'.length = st.registry.length
        ∧ reg'.get? (st.registry.length - 1)
            = (st.registry.get? (st.registry.length - 1)).map
                (fun e => { e with address := addr })
        ∧ ∀ j, j ≠ st.registry.length - 1 → reg'.get? j = st.registry.get? j) := by
  constructor
  · by_cases hid : r.id = 0
    · constructor
      · intro h
        simp only [factory.reply, hid, ne_eq, not_true_eq_false, if_false] at h
        repeat' split at h
        all_goals first
          | exact absurd hid (by assumption)
          | exact Except.noConfusion h
          | (injection h with hs; exact absurd hs (by decide))
      · intro h
        exact absurd hid h
    · constructor
      · intro _
        exact hid
      · intro _
        simp [factory.reply, hid]
  · intro resp addr h0 hres hdata hlen
    refine ⟨factory.listModify st.registry (st.registry.length - 1)
      (fun e => { e with address := addr }), ?_, ?_, ?_, ?_⟩
    · simp [factory.reply, h0, hres, hdata, Nat.pos_iff_ne_zero.mp hlen]
    · exact factory.listModify_length _ _ _
    · exact factory.listModify_get_self _ _ _
    · intro j hj
      exact factory.listModify_get_ne _ _ _ _ hj

/-- Witness for C7: a one-entry registry resolved by a reply with tag 0. -/
theorem C7_witness :
    ∃ reg',
      factory.reply
          { template := none
            registry := [{ address := "", code_hash := "h"
                           info := { name := "s", end_block := 5 } }] }
          { id := 0, result := .ok { data := some "auction1" } }
        = .ok { template := none, registry := reg' }
      ∧ reg'.length = 1
      ∧ reg'.get? 0
          = some { address := "auction1", code_hash := "h"
                   info := { name := "s", end_block := 5 } }
      ∧ ∀ j, j ≠ 0 →
          reg'.get? j
            = [({ address := "", code_hash := "h"
                  info := { name := "s", end_block := 5 } } :
                factory.AuctionEntry)].get? j :=
  (C7_reply_correlation
    { template := none
      registry := [{ address := "", code_hash := "h"
                     info := { name := "s", end_block := 5 } }] }
    { id := 0, result := .ok { data := some "auction1" } }).2
    { data := some "auction1" } "auction1" rfl rfl rfl (by decide)

/-- C8 (confirmed): for a ledger/registry of N entries, active_bids and
list_auctions with offset ≥ N return an empty entries window with total = N
(not an error), and the window size is min(requested limit, 30), further
bounded by the entries remaining after the offset. -/
theorem C8_pagination_bounds (st : auction.AuctionState)
    (fs : factory.FactoryState) (pagination : Pagination) :
    ((auction.active_bids st pagination).total = st.bidders.length
      ∧ (st.bidders.length ≤ pagination.start →
          (auction.active_bids st pagination).entries = [])
      ∧ (auction.active_bids st pagination).entries.length
          = min (min pagination.limit 30) (st.bidders.length - pagination.start))
  ∧ ((factory.list_auctions fs pagination).total = fs.registry.length
      ∧ (fs.registry.length ≤ pagination.start →
          (factory.list_auctions fs pagination).entries = [])
      ∧ (factory.list_auctions fs pagination).entries.length
          = min (min pagination.limit 30) (fs.registry.length - pagination.start)) := by
  refine ⟨⟨?_, ?_, ?_⟩, ⟨?_, ?_, ?_⟩⟩
  · simp [auction.active_bids]
  · intro h
    have hd : (st.bidders.map (fun p => p.2)).drop pagination.start = [] :=
      List.drop_eq_nil_of_le (by simpa using h)
    simp [auction.active_bids, hd]
  · simp [auction.active_bids, Pagination.LIMIT, List.length_take, List.length_drop]
  · simp [factory.list_auctions]
  · intro h
    have hd : fs.registry.drop pagination.start = [] :=
      List.drop_eq_nil_of_le h
    simp [factory.list_auctions, hd]
  · simp [factory.list_auctions, Pagination.LIMIT, List.length_take, List.length_drop]

/-- Witness for C8: out-of-range offsets on a concrete two-entry ledger and an
empty registry yield empty windows and the true totals. -/
theorem C8_witness :
    (auction.active_bids
        { info := { name := "s", end_block := 5 }
          highest_bid := some "a", bidders := [("a", 1), ("b", 2)] }
        { start := 5, limit := 100 }).entries = []
  ∧ (auction.active_bids
        { info := { name := "s", end_block := 5 }
          highest_bid := some "a", bidders := [("a", 1), ("b", 2)] }
        { start := 5, limit := 100 }).total = 2
  ∧ (factory.list_auctions { template := none, registry := [] }
        { start := 3, limit := 7 }).entries = [] :=
  ⟨(C8_pagination_bounds
      { info := { name := "s", end_block := 5 }
        highest_bid := some "a", bidders := [("a", 1), ("b", 2)] }
      { template := none, registry := [] }
      { start := 5, limit := 100 }).1.2.1 (by decide),
   (C8_pagination_bounds
      { info := { name := "s", end_block := 5 }
        highest_bid := some "a", bidders := [("a", 1), ("b", 2)] }
      { template := none, registry := [] }
      { start := 5, limit := 100 }).1.1,
   (C8_pagination_bounds
      { info := { name := "s", end_block := 5 }
        highest_bid := some "a", bidders := [("a", 1), ("b", 2)] }
      { template := none, registry := [] }
      { start := 3, limit := 7 }).2.2.1 (by decide)⟩

/-- C9 (confirmed): no creation-time deadline validation exists — for every
end_block value (including values at or below the current height), the
auction's own create and the factory's create_auction path both succeed, and
neither can produce any error (in particular not "End block has already
passed").  The repository's test suite expects such a check; the traced
creation logic omits it. -/
theorem C9_no_deadline_validation (name : String) (end_block height : Nat)
    (admin : Option String) (fs : factory.FactoryState)
    (tmpl : factory.ContractInstantiationInfo) (htmpl : fs.template = some tmpl) :
    auction.new name end_block
      = .ok { info := { name := name, end_block := end_block }
              highest_bid := none, bidders := [] }
  ∧ (∃ fs' sub, factory.create_auction fs height admin name end_block
        = .ok (fs', sub))
  ∧ (∀ e, auction.new name end_block ≠ .error e)
  ∧ (∀ e, factory.create_auction fs height admin name end_block ≠ .error e) := by
  refine ⟨rfl, ?_, fun e h => Except.noConfusion h, ?_⟩
  · refine ⟨{ fs with registry := fs.registry
        ++ [{ address := "", code_hash := tmpl.code_hash
              info := { name := name, end_block := end_block } }] },
      { reply_id := 0, code_id := tmpl.id, code_hash := tmpl.code_hash
        msg := { admin := admin, name := name, end_block := end_block } }, ?_⟩
    simp [factory.create_auction, htmpl]
  · intro e h
    rw [factory.create_auction, htmpl] at h
    exact Except.noConfusion h

/-- Witness for C9: creation with end_block = 0 at height 100 — a deadline
already in the past — still succeeds on both paths. -/
theorem C9_witness :
    auction.new "s" 0
      = .ok { info := { name := "s", end_block := 0 }
              highest_bid := none, bidders := [] }
  ∧ ∃ fs' sub,
      factory.create_auction
          { template := some { id := 1, code_hash := "h" }, registry := [] }
          100 none "s" 0
        = .ok (fs', sub) :=
  ⟨(C9_no_deadline_validation "s" 0 100 none
      { template := some { id := 1, code_hash := "h" }, registry := [] }
      { id := 1, code_hash := "h" } rfl).1,
   (C9_no_deadline_validation "s" 0 100 none
      { template := some { id := 1, code_hash := "h" }, registry := [] }
      { id := 1, code_hash := "h" } rfl).2.1⟩

/-- C10 (confirmed): bid() credits only the first attached coin of
denomination "uscrt" — any successful bid raises the caller's ledger entry by
exactly that coin's amount; when the attached funds contain no "uscrt" coin
the credit is zero; and on a fresh auction in the Open phase such a call still
succeeds, is neither rejected nor refunded, and sets the caller as highest
bidder via the first-bid rule. -/
theorem C10_uscrt_only_credit (st : auction.AuctionState) (height : Nat)
    (sender : Addr) (funds : List Coin) :
    (∀ (st' : auction.AuctionState) (msgs : List BankMsg),
        auction.bid st height sender funds = .ok (st', msgs) →
        auction.ledgerGetD st'.bidders sender
          = auction.ledgerGetD st.bidders sender + auction.firstUscrt funds
        ∧ msgs = [])
  ∧ ((∀ c ∈ funds, c.denom ≠ "uscrt") → auction.firstUscrt funds = 0)
  ∧ (height ≤ st.info.end_block → st.highest_bid = none →
      auction.bid st height sender funds
        = .ok ({ st with
                 highest_bid := some sender
                 bidders := auction.ledgerInsert st.bidders sender
                   (auction.ledgerGetD st.bidders sender
                     + auction.firstUscrt funds) }, [])) := by
  refine ⟨?_, auction.firstUscrt_of_no_uscrt funds, ?_⟩
  · intro st' msgs hok
    obtain ⟨hb, hm, hi⟩ := auction.bid_ok_shape st height sender funds st' msgs hok
    exact ⟨by rw [hb, auction.ledgerGetD_insert_self], hm⟩
  · intro hopen hnone
    simp [auction.bid, Nat.not_lt.mpr hopen, hnone]

/-- Witness for C10: a bid carrying only a non-"uscrt" coin succeeds, credits
zero, and takes the pointer on a fresh auction. -/
theorem C10_witness :
    auction.bid
      { info := { name := "s", end_block := 9 }
        highest_bid := none, bidders := [] } 2 "a"
      [{ denom := "uatom", amount := 50 }]
    = .ok ({ info := { name := "s", end_block := 9 }
             highest_bid := some "a", bidders := [("a", 0)] }, [])
  ∧ auction.firstUscrt [{ denom := "uatom", amount := 50 }] = 0 :=
  ⟨(C10_uscrt_only_credit
      { info := { name := "s", end_block := 9 }
        highest_bid := none, bidders := [] } 2 "a"
      [{ denom := "uatom", amount := 50 }]).2.2 (by decide) rfl,
   (C10_uscrt_only_credit
      { info := { name := "s", end_block := 9 }
        highest_bid := none, bidders := [] } 2 "a"
      [{ denom := "uatom", amount := 50 }]).2.1 (by decide)⟩

/-- Witness for C1 (amended): concrete phase-gate evaluations — bid fails one
block after the deadline, and retract_bid raises the phase error one block
before it. -/
theorem C1_witness :
    auction.bid
      { info := { name := "s", end_block := 5 }
        highest_bid := none, bidders := [] } 6 "a" []
      = .error "Sale has finished."
  ∧ auction.retract_bid
      { info := { name := "s", end_block := 5 }
        highest_bid := none, bidders := [] } 4 "a"
      = .error "Sale hasn't finished yet." :=
  ⟨(C1_phase_gating
      { info := { name := "s", end_block := 5 }
        highest_bid := none, bidders := [] } 6 "a" []).1.mpr (by decide),
   (C1_phase_gating
      { info := { name := "s", end_block := 5 }
        highest_bid := none, bidders := [] } 4 "a" []).2.1.mpr (by decide)⟩
